import Mathlib

set_option maxHeartbeats 1000000

/-!
Verification of the `@basementscripts/dynamodb-utils` expression-building
subsystem.  The definitions below are a shallow embedding of the TypeScript
sources: the value encoder `toAttributeValue`, and the request builders
`buildPutInput`, `buildScanInput`, `buildQueryInput`, `buildUpdateInput`
(current `@aws-sdk/client-dynamodb` implementation), plus the superseded
`aws-sdk` v2 snapshot of `buildPutInput`/`buildUpdateInput` under the
`Legacy` namespace (`src/utils.ts` in the old layout).

Modelling conventions:
- JavaScript objects are modelled as association lists in insertion order
  (`objSet` mirrors `obj[k] = v`: overwrite in place, else append;
  `objHasKey` mirrors `hasOwnProperty`).
- JavaScript runtime values are the closed grammar `RuntimeValue`
  (numbers restricted to integers; every number appearing in the
  repository's tests is an integer, and `Number.prototype.toString`
  coincides with decimal integer rendering there).
- `str.charAt(i)` is `jsCharAt` (one-character string, `""` out of range).
- The impure read `Date.now()` inside the current `buildUpdateInput` is
  passed in as the explicit argument `ts`.
- The combined reserved-word list `allReservedWords` is assembled in the
  sources from seven category files of which only the control-flow and
  security categories are present in the snapshot; the builders therefore
  take the reserved list as an explicit parameter `rw`.
-/

/-- JavaScript runtime values as accepted by the encoder. -/
inductive RuntimeValue where
  | vUndefined : RuntimeValue
  | vNull : RuntimeValue
  | vStr : String → RuntimeValue
  | vNum : Int → RuntimeValue
  | vBool : Bool → RuntimeValue
  | vList : List RuntimeValue → RuntimeValue
  | vMap : List (String × RuntimeValue) → RuntimeValue

/-- DynamoDB tagged attribute values (the wire representation). -/
inductive AttributeValue where
  | S : String → AttributeValue
  | N : String → AttributeValue
  | BOOL : Bool → AttributeValue
  | NULL : AttributeValue
  | L : List AttributeValue → AttributeValue
  | M : List (String × AttributeValue) → AttributeValue

/-- One-character string at index `i`, `""` when out of range; embeds
JavaScript `String.prototype.charAt`. -/
def jsCharAt (s : String) (i : Nat) : String :=
  String.mk ((s.toList.drop i).take 1)

/-- Embeds `obj.hasOwnProperty(k)` on an insertion-ordered object. -/
def objHasKey : List (String × α) → String → Bool
  | [], _ => false
  | p :: rest, k => p.1 == k || objHasKey rest k

/-- Embeds `obj[k] = v`: overwrite in place when the key exists,
otherwise append. -/
def objSet : List (String × α) → String → α → List (String × α)
  | [], k, v => [(k, v)]
  | p :: rest, k, v => if p.1 = k then (k, v) :: rest else p :: objSet rest k v

/-- Embeds property lookup `obj[k]`. -/
def objGet : List (String × α) → String → Option α
  | [], _ => none
  | p :: rest, k => if p.1 = k then some p.2 else objGet rest k

mutual
/-- The value encoder `toAttributeValue` of the current sources:
`undefined`/`null` return the Null variant, strings/numbers/booleans the
matching scalar variant, arrays and plain objects recurse.  The
recursions through `Array.prototype.map` / `Object.entries` are expanded
into the mutual helpers below. -/
def toAttributeValue : RuntimeValue → AttributeValue
  | .vUndefined => .NULL
  | .vNull => .NULL
  | .vStr s => .S s
  | .vNum n => .N (toString n)
  | .vBool b => .BOOL b
  | .vList xs => .L (toAttributeValueList xs)
  | .vMap m => .M (toAttributeValueEntries m)

/-- Elementwise encoding of a list value. -/
def toAttributeValueList : List RuntimeValue → List AttributeValue
  | [] => []
  | x :: xs => toAttributeValue x :: toAttributeValueList xs

/-- Entrywise encoding of a map value. -/
def toAttributeValueEntries : List (String × RuntimeValue) → List (String × AttributeValue)
  | [] => []
  | kv :: rest => (kv.1, toAttributeValue kv.2) :: toAttributeValueEntries rest
end

mutual
/-- The value encoder as the specification describes it (spec section 4.1),
written only to compare with the source's `toAttributeValue`: `undefined`
is an error, `null` is the Null variant, everything else encodes like the
source function. -/
def specEncode : RuntimeValue → Except String AttributeValue
  | .vUndefined => .error "undefined passed to encode"
  | .vNull => .ok .NULL
  | .vStr s => .ok (.S s)
  | .vNum n => .ok (.N (toString n))
  | .vBool b => .ok (.BOOL b)
  | .vList xs =>
      match specEncodeList xs with
      | .ok l => .ok (.L l)
      | .error e => .error e
  | .vMap m =>
      match specEncodeEntries m with
      | .ok l => .ok (.M l)
      | .error e => .error e

/-- Elementwise spec-side encoding of a list value. -/
def specEncodeList : List RuntimeValue → Except String (List AttributeValue)
  | [] => .ok []
  | x :: xs =>
      match specEncode x, specEncodeList xs with
      | .ok v, .ok l => .ok (v :: l)
      | .error e, _ => .error e
      | _, .error e => .error e

/-- Entrywise spec-side encoding of a map value. -/
def specEncodeEntries : List (String × RuntimeValue) → Except String (List (String × AttributeValue))
  | [] => .ok []
  | kv :: rest =>
      match specEncode kv.2, specEncodeEntries rest with
      | .ok v, .ok l => .ok ((kv.1, v) :: l)
      | .error e, _ => .error e
      | _, .error e => .error e
end

/-- The control-flow category of the reserved-word list, transcribed in
full (duplicates included, in source order) from the `export const
controlFlow` array present in the snapshot. -/
def controlFlow : List String :=
  ["if", "else", "elseif", "then", "end", "case", "when", "default", "break",
   "continue", "return", "exit", "goto", "label", "loop", "while", "repeat",
   "until", "for", "foreach", "in", "do", "begin", "end", "transaction",
   "commit", "rollback", "savepoint", "release", "set", "declare", "cursor",
   "open", "close", "fetch", "into", "using", "handler", "condition",
   "signal", "resignal", "diagnostics", "get", "stacked", "current",
   "global", "local", "session", "system", "user", "current_user",
   "session_user", "system_user"]

/-- The security category of the reserved-word list, transcribed in full
(duplicates included, in source order) from `src/reserved/security.ts`. -/
def security : List String :=
  ["grant", "revoke", "deny", "role", "user", "group", "public", "owner",
   "schema", "database", "server", "login", "password", "encryption",
   "decryption", "certificate", "key", "master", "symmetric", "asymmetric",
   "public", "private", "secret", "credential", "identity", "principal",
   "permission", "privilege", "authorization", "authentication", "login",
   "logout", "session", "connection", "audit", "trace", "monitor",
   "security", "policy", "rule", "constraint", "check", "foreign", "primary",
   "unique", "index", "view", "procedure", "function", "trigger", "event",
   "job", "schedule", "task", "workload", "resource", "pool", "group",
   "class", "priority", "limit", "quota", "threshold", "alert",
   "notification", "message", "queue", "topic", "subscription", "publish",
   "subscribe", "broker", "service", "contract", "message_type",
   "queue_type", "service_type", "binding", "route", "endpoint", "protocol",
   "transport", "security", "encryption", "authentication", "authorization",
   "permission", "privilege", "role", "user", "group", "public", "owner",
   "schema", "database", "server", "login", "password", "certificate", "key",
   "master", "symmetric", "asymmetric", "public", "private", "secret",
   "credential", "identity", "principal"]

/-- Modelled from the spec: `allReservedWords` is assembled in
`src/reserved/index.ts` from seven category arrays, spread in the order
sql-keywords, data-types, functions, control-flow, table-operations,
index-operations, security; the spec describes the result as a fixed,
case-sensitive set of expression-grammar keywords.  Of the seven
category files, only control-flow and security are present in the
snapshot; the other five are missing, so the model is the concatenation
of the two present categories in the index's relative order.  The
repository's own test for `buildQueryInput` shows `name` and `age`
rendered bare, so they are not members of the real combined list
either. -/
def allReservedWords : List String := controlFlow ++ security

/-- Request shape for `buildPutInput` (`PutItemRequest`). -/
structure PutItemRequest where
  tableName : String
  params : List (String × RuntimeValue)

/-- Compiled put request of the current implementation. -/
structure PutItemInput where
  TableName : String
  Item : List (String × AttributeValue)

/-- Current `buildPutInput`: the item map is rebuilt entry by entry with
every value passed through `toAttributeValue` (the source's
`Object.entries(params).reduce((acc, [k, v]) => ({ ...acc, [k]: toAttributeValue(v) }), {})`).
No expression strings are produced: the output has no other fields. -/
def buildPutInput (request : PutItemRequest) : PutItemInput :=
  { TableName := request.tableName,
    Item := request.params.foldl (fun acc kv => objSet acc kv.1 (toAttributeValue kv.2)) [] }

/-- Options bag of a scan request (`ScanInputRequestOptions`). -/
structure ScanInputRequestOptions where
  filterExpressionContext : Option String

/-- Request shape for `buildScanInput` (`ScanInputRequest`). -/
structure ScanInputRequest where
  tableName : String
  startKey : Option String
  limit : Option Nat
  params : Option (List (String × RuntimeValue))
  output : Option (List String)
  options : Option ScanInputRequestOptions

/-- Compiled scan request of the current implementation. -/
structure ScanInput where
  TableName : String
  Limit : Nat
  Select : String
  ExclusiveStartKey : Option String
  ExpressionAttributeNames : Option (List (String × String))
  ExpressionAttributeValues : Option (List (String × AttributeValue))
  ProjectionExpression : Option String
  FilterExpression : Option String

/-- Accumulator of the scan parameter loop: the two alias tables being
built plus the filter clauses pushed so far. -/
structure ScanAcc where
  names : List (String × String)
  values : List (String × AttributeValue)
  filters : List String

/-- The `Object.entries(request.params).forEach(([attr, value], index))`
loop of the current `buildScanInput`: the name token is always
`"#" ++ attr`, the value placeholder is always
`":" ++ attr.charAt(0) ++ index`; array values emit a `contains` clause
bound to the first element, strings and numbers emit an equality clause,
everything else (including `null`, booleans and plain objects) only
registers the name token. -/
def scanLoop : ScanAcc → Nat → List (String × RuntimeValue) → ScanAcc
  | acc, _, [] => acc
  | acc, i, (attr, value) :: rest =>
      let token := "#" ++ attr
      let filter := ":" ++ jsCharAt attr 0 ++ Nat.repr i
      let names := objSet acc.names token attr
      match value with
      | .vList xs =>
          scanLoop ⟨names,
                    objSet acc.values filter (toAttributeValue (xs.headD .vUndefined)),
                    acc.filters ++ ["contains(" ++ token ++ ", " ++ filter ++ ")"]⟩
                   (i + 1) rest
      | .vStr s =>
          scanLoop ⟨names,
                    objSet acc.values filter (toAttributeValue (.vStr s)),
                    acc.filters ++ [token ++ " = " ++ filter]⟩
                   (i + 1) rest
      | .vNum n =>
          scanLoop ⟨names,
                    objSet acc.values filter (toAttributeValue (.vNum n)),
                    acc.filters ++ [token ++ " = " ++ filter]⟩
                   (i + 1) rest
      | _ => scanLoop ⟨names, acc.values, acc.filters⟩ (i + 1) rest

/-- Current `buildScanInput`.  The projection block aliases every
requested output name unconditionally and joins the tokens with `", "`;
the params block continues filling the same name table, always emits both
alias tables (even empty), and emits `FilterExpression` only when at
least one clause was pushed, joined with the configured context word
(default `And`). -/
def buildScanInput (request : ScanInputRequest) : ScanInput :=
  let limit := match request.limit with
    | some l => if l = 0 then 1000 else l
    | none => 1000
  let startKey := match request.startKey with
    | some s => if s = "" then none else some s
    | none => none
  let projNames : Option (List (String × String)) :=
    match request.output with
    | some out => some (out.foldl (fun m a => objSet m ("#" ++ a) a) [])
    | none => none
  let projExpr : Option String :=
    match request.output with
    | some out => some (String.intercalate ", " (out.map (fun a => "#" ++ a)))
    | none => none
  match request.params with
  | some ps =>
      let acc := scanLoop ⟨projNames.getD [], [], []⟩ 0 ps
      let ctx := match request.options with
        | some o =>
            match o.filterExpressionContext with
            | some c => if c = "" then "And" else c
            | none => "And"
        | none => "And"
      { TableName := request.tableName, Limit := limit, Select := "ALL_ATTRIBUTES",
        ExclusiveStartKey := startKey,
        ExpressionAttributeNames := some acc.names,
        ExpressionAttributeValues := some acc.values,
        ProjectionExpression := projExpr,
        FilterExpression :=
          if acc.filters.length > 0 then
            some (String.intercalate (" " ++ ctx ++ " ") acc.filters)
          else none }
  | none =>
      { TableName := request.tableName, Limit := limit, Select := "ALL_ATTRIBUTES",
        ExclusiveStartKey := startKey,
        ExpressionAttributeNames := projNames,
        ExpressionAttributeValues := none,
        ProjectionExpression := projExpr,
        FilterExpression := none }

/-- Request shape for `buildQueryInput` (`QueryItemRequest`). -/
structure QueryItemRequest where
  tableName : String
  indexName : Option String
  limit : Option Nat
  nextToken : Option (List (String × AttributeValue))
  params : List (String × RuntimeValue)

/-- Compiled query request of the current implementation.
`ExpressionAttributeValues` is part of the initial object literal in the
source and is therefore always present; `ExpressionAttributeNames` is
attached only when non-empty. -/
structure QueryInput where
  TableName : String
  IndexName : Option String
  ConsistentRead : Bool
  Limit : Option Nat
  ExclusiveStartKey : Option (List (String × AttributeValue))
  ExpressionAttributeNames : Option (List (String × String))
  ExpressionAttributeValues : List (String × AttributeValue)
  KeyConditionExpression : String

/-- Accumulator of the query parameter loop. -/
structure QueryAcc where
  names : List (String × String)
  values : List (String × AttributeValue)
  keyExprs : List String

/-- The `paramAttrs.forEach` loop of the current `buildQueryInput`: the
candidate placeholder is `":" ++ attr.charAt(0)`; when that exact string
is already a key of the value table the placeholder becomes
`":" ++ attr.charAt(0) ++ attr.charAt(1)` (no further re-check); the
value is encoded and stored; the name token is `"#" ++ attr` with a name
table entry exactly when `attr` is in the reserved list, else the bare
name. -/
def queryLoop (rw : List String) : QueryAcc → List (String × RuntimeValue) → QueryAcc
  | acc, [] => acc
  | acc, (attr, value) :: rest =>
      let filter :=
        if objHasKey acc.values (":" ++ jsCharAt attr 0) then
          ":" ++ jsCharAt attr 0 ++ jsCharAt attr 1
        else
          ":" ++ jsCharAt attr 0
      let values := objSet acc.values filter (toAttributeValue value)
      if rw.contains attr then
        queryLoop rw ⟨objSet acc.names ("#" ++ attr) attr, values,
                      acc.keyExprs ++ ["#" ++ attr ++ " = " ++ filter]⟩ rest
      else
        queryLoop rw ⟨acc.names, values, acc.keyExprs ++ [attr ++ " = " ++ filter]⟩ rest

/-- Current `buildQueryInput`, parameterised by the reserved-word list
`rw` (the source imports `allReservedWords`). -/
def buildQueryInput (rw : List String) (request : QueryItemRequest) : QueryInput :=
  let acc := queryLoop rw ⟨[], [], []⟩ request.params
  { TableName := request.tableName,
    IndexName := request.indexName,
    ConsistentRead := true,
    Limit := match request.limit with
      | some l => if l = 0 then none else some l
      | none => none,
    ExclusiveStartKey := request.nextToken,
    ExpressionAttributeNames := if acc.names.isEmpty then none else some acc.names,
    ExpressionAttributeValues := acc.values,
    KeyConditionExpression := String.intercalate " and " acc.keyExprs }

/-- Request shape for `buildUpdateInput` (`UpdateItemRequest`). -/
structure UpdateItemRequest where
  tableName : String
  key : Option (List (String × AttributeValue))
  params : Option (List (String × RuntimeValue))

/-- Compiled update request of the current implementation; both alias
tables are unconditionally part of the returned object literal. -/
structure UpdateItemInput where
  TableName : String
  Key : Option (List (String × AttributeValue))
  ReturnValues : String
  ExpressionAttributeNames : List (String × String)
  ExpressionAttributeValues : List (String × AttributeValue)
  UpdateExpression : String

/-- Accumulator of the update parameter loop. -/
structure UpdateAcc where
  names : List (String × String)
  values : List (String × AttributeValue)
  exprs : List String

/-- The `Object.entries(params).forEach(([key, value], index))` loop of
the current `buildUpdateInput`: every name is aliased unconditionally,
the placeholder is `":" ++ key.charAt(0) ++ index`, and every value is
encoded with `toAttributeValue`. -/
def updateLoop : UpdateAcc → Nat → List (String × RuntimeValue) → UpdateAcc
  | acc, _, [] => acc
  | acc, i, (key, value) :: rest =>
      let nameKey := "#" ++ key
      let valueKey := ":" ++ jsCharAt key 0 ++ Nat.repr i
      updateLoop ⟨objSet acc.names nameKey key,
                  objSet acc.values valueKey (toAttributeValue value),
                  acc.exprs ++ [nameKey ++ " = " ++ valueKey]⟩ (i + 1) rest

/-- Current `buildUpdateInput`.  The validations mirror
`validateTableName` / `validateKey` / `validateObject` /
`validateTimestamp`; the argument `ts` is the `Date.now()` reading taken
inside the function, and the function itself merges the `updatedAt`
attribute into the parameter map (`{ ...request.params, updatedAt: ts }`)
before compiling. -/
def buildUpdateInput (request : UpdateItemRequest) (ts : Int) : Except String UpdateItemInput :=
  if request.tableName = "" then .error "TableName is required"
  else if (match request.key with | some k => k.isEmpty | none => false) then
    .error "Key is required and must not be empty"
  else if (match request.params with | some p => p.isEmpty | none => false) then
    .error "Params is required and must not be empty"
  else if ts = 0 then .error "Invalid timestamp"
  else
    let params := objSet (request.params.getD []) "updatedAt" (.vNum ts)
    let acc := updateLoop ⟨[], [], []⟩ 0 params
    .ok { TableName := request.tableName, Key := request.key, ReturnValues := "ALL_NEW",
          ExpressionAttributeNames := acc.names,
          ExpressionAttributeValues := acc.values,
          UpdateExpression := "SET " ++ String.intercalate ", " acc.exprs }

/-- Observable projection of a compiled update result: the decimal texts
of the number-tagged values in binding order (used to compare two
compiled requests). -/
def updateValuesDigest (r : Except String UpdateItemInput) : List String :=
  match r with
  | .ok o => o.ExpressionAttributeValues.map
      (fun kv => match kv.2 with | .N s => s | _ => "")
  | .error e => [e]

namespace Legacy

/-- Superseded `aws-sdk` v2 `buildPutInput`: the caller's raw parameter
map is passed through as the item, without encoding. -/
structure PutItemInput where
  TableName : String
  Item : List (String × RuntimeValue)

/-- Legacy `buildPutInput` (`src/utils.ts`): `Item: request.params`. -/
def buildPutInput (request : PutItemRequest) : PutItemInput :=
  { TableName := request.tableName, Item := request.params }

/-- Request shape of the legacy `buildUpdateInput` (untyped `request`
with table name, key and raw params). -/
structure UpdateItemRequest where
  tableName : String
  key : List (String × RuntimeValue)
  params : List (String × RuntimeValue)

/-- Compiled legacy update request; the value table holds raw runtime
values, and the name table is attached only when non-empty. -/
structure UpdateItemInput where
  TableName : String
  Key : List (String × RuntimeValue)
  ReturnValues : String
  ExpressionAttributeNames : Option (List (String × String))
  ExpressionAttributeValues : List (String × RuntimeValue)
  UpdateExpression : String

/-- Accumulator of the legacy update loop. -/
structure UpdateAcc where
  names : List (String × String)
  values : List (String × RuntimeValue)
  exprs : List String

/-- The `paramAttrs.forEach` loop of the legacy `buildUpdateInput`: same
first-character placeholder with the second character appended on
collision; raw values bound; names aliased exactly when reserved. -/
def updateLoop (rw : List String) : UpdateAcc → List (String × RuntimeValue) → UpdateAcc
  | acc, [] => acc
  | acc, (attr, value) :: rest =>
      let filter :=
        if objHasKey acc.values (":" ++ jsCharAt attr 0) then
          ":" ++ jsCharAt attr 0 ++ jsCharAt attr 1
        else
          ":" ++ jsCharAt attr 0
      let values := objSet acc.values filter value
      if rw.contains attr then
        updateLoop rw ⟨objSet acc.names ("#" ++ attr) attr, values,
                       acc.exprs ++ ["#" ++ attr ++ " = " ++ filter]⟩ rest
      else
        updateLoop rw ⟨acc.names, values, acc.exprs ++ [attr ++ " = " ++ filter]⟩ rest

/-- Legacy `buildUpdateInput` (`src/utils.ts` lines 129-162),
parameterised by the default-exported reserved list it imports. -/
def buildUpdateInput (rw : List String) (request : UpdateItemRequest) : UpdateItemInput :=
  let acc := updateLoop rw ⟨[], [], []⟩ request.params
  { TableName := request.tableName, Key := request.key, ReturnValues := "ALL_NEW",
    ExpressionAttributeNames := if acc.names.isEmpty then none else some acc.names,
    ExpressionAttributeValues := acc.values,
    UpdateExpression := "SET " ++ String.intercalate ", " acc.exprs }

end Legacy

example :
    buildScanInput
      { tableName := "test", startKey := none, limit := some 1000,
        params := some [("name", .vStr "John Doe"), ("age", .vNum 25)],
        output := none, options := none } =
    { TableName := "test", Limit := 1000, Select := "ALL_ATTRIBUTES",
      ExclusiveStartKey := none,
      ExpressionAttributeNames := some [("#name", "name"), ("#age", "age")],
      ExpressionAttributeValues := some [(":n0", .S "John Doe"), (":a1", .N "25")],
      ProjectionExpression := none,
      FilterExpression := some "#name = :n0 And #age = :a1" } := by
  rfl

theorem objHasKey_append (m1 m2 : List (String × α)) (k : String) :
    objHasKey (m1 ++ m2) k = (objHasKey m1 k || objHasKey m2 k) := by
  induction m1 with
  | nil => simp [objHasKey]
  | cons p rest ih => simp [objHasKey, ih, Bool.or_assoc]

theorem objSet_of_not_has (m : List (String × α)) (k : String) (v : α)
    (h : objHasKey m k = false) : objSet m k v = m ++ [(k, v)] := by
  induction m with
  | nil => simp [objSet]
  | cons p rest ih =>
    simp only [objHasKey, Bool.or_eq_false_iff, beq_eq_false_iff_ne, ne_eq] at h
    rw [objSet, if_neg h.1, ih h.2]
    simp

theorem objSet_ne_nil (m : List (String × α)) (k : String) (v : α) :
    objSet m k v ≠ [] := by
  cases m with
  | nil => simp [objSet]
  | cons p rest => rw [objSet]; split <;> simp

theorem objHasKey_objSet_self (m : List (String × α)) (k : String) (v : α) :
    objHasKey (objSet m k v) k = true := by
  induction m with
  | nil => simp [objSet, objHasKey]
  | cons p rest ih =>
    rw [objSet]
    split
    · simp [objHasKey]
    · simp [objHasKey, ih]

theorem objHasKey_objSet_mono (m : List (String × α)) (k2 : String) (v : α)
    (k : String) (h : objHasKey m k = true) :
    objHasKey (objSet m k2 v) k = true := by
  induction m with
  | nil => simp [objHasKey] at h
  | cons p rest ih =>
    simp only [objHasKey, Bool.or_eq_true] at h
    rw [objSet]
    split
    · rcases h with h | h
      · rename_i hp
        simp only [objHasKey, Bool.or_eq_true]
        left
        rw [← hp]
        exact h
      · simp [objHasKey, h]
    · rcases h with h | h
      · simp [objHasKey, h]
      · simp [objHasKey, ih h]

theorem mem_objSet (m : List (String × α)) (k : String) (v : α)
    (kv : String × α) (h : kv ∈ objSet m k v) : kv ∈ m ∨ kv = (k, v) := by
  induction m with
  | nil => simp [objSet] at h; simp [h]
  | cons p rest ih =>
    rw [objSet] at h
    split at h
    · rcases List.mem_cons.mp h with h | h
      · right; exact h
      · left; exact List.mem_cons_of_mem _ h
    · rcases List.mem_cons.mp h with h | h
      · left; simp [h]
      · rcases ih h with h | h
        · left; exact List.mem_cons_of_mem _ h
        · right; exact h

theorem objSet_map_fst (m : List (String × α)) (k : String) (v w : α) :
    (objSet m k v).map Prod.fst = (objSet m k w).map Prod.fst := by
  induction m with
  | nil => simp [objSet]
  | cons p rest ih =>
    rw [objSet, objSet]
    split <;> simp [ih]

theorem string_of_length_zero (s : String) (h : s.length = 0) : s = "" := by
  cases s with
  | mk data =>
    have hd : data = [] := List.length_eq_zero.mp h
    simp [hd]

theorem hash_tok_inj (a b : String) (h : ("#" ++ a : String) = "#" ++ b) : a = b := by
  have h2 : ("#" ++ a).data = ("#" ++ b).data := congrArg String.data h
  simp only [String.data_append] at h2
  have h3 : a.data = b.data := by
    simpa using h2
  cases a with
  | mk da =>
    cases b with
    | mk db => exact congrArg String.mk h3

theorem colon_tok_ne (c d : String) (hd : d ≠ "") :
    (":" ++ c : String) ≠ ":" ++ c ++ d := by
  intro h
  have h2 := congrArg String.length h
  simp only [String.length_append] at h2
  have h3 : d.length = 0 := by omega
  exact hd (string_of_length_zero d h3)

/-- C2 counterexample: the source encoder `toAttributeValue`, applied to
`undefined`, returns the Null attribute value instead of failing; the
spec-side encoder `specEncode` (which follows the claim) errors on the
same input, exhibiting the divergence. -/
theorem c2_counterexample :
    toAttributeValue .vUndefined = .NULL
    ∧ specEncode .vUndefined = .error "undefined passed to encode" := by
  exact ⟨rfl, rfl⟩

/-- C2 (amended): the value encoder maps both `undefined` and `null` to
the Null variant; `undefined` is silently coerced, not rejected. -/
theorem c2_amended (v : RuntimeValue) (h : v = .vUndefined ∨ v = .vNull) :
    toAttributeValue v = .NULL := by
  rcases h with h | h <;> rw [h] <;> rfl

theorem c2_amended_witness :
    (RuntimeValue.vUndefined = .vUndefined ∨ RuntimeValue.vUndefined = .vNull)
    ∧ toAttributeValue .vUndefined = .NULL :=
  ⟨Or.inl rfl, c2_amended .vUndefined (Or.inl rfl)⟩

/-- C6: compiling a filter over the flat map
`{ name: "John Doe", age: 25 }` with the default And join yields exactly
the expression `#name = :n0 And #age = :a1`, with `:n0` bound to the
tagged string and `:a1` to the tagged number. -/
theorem c6_scan_scenario :
    buildScanInput
      { tableName := "test", startKey := none, limit := some 1000,
        params := some [("name", .vStr "John Doe"), ("age", .vNum 25)],
        output := none, options := none } =
    { TableName := "test", Limit := 1000, Select := "ALL_ATTRIBUTES",
      ExclusiveStartKey := none,
      ExpressionAttributeNames := some [("#name", "name"), ("#age", "age")],
      ExpressionAttributeValues := some [(":n0", .S "John Doe"), (":a1", .N "25")],
      ProjectionExpression := none,
      FilterExpression := some "#name = :n0 And #age = :a1" } := by
  rfl

/-- C1 counterexample: with the three attribute names `abc`, `abd`, `abe`
(which share their first two characters) the query compiler mints the
placeholder `:ab` twice — the disambiguator is the second character of the
name, not an integer position index, and it is applied only once without a
re-check — so the placeholders are not pairwise distinct, `:ab` ends up
bound to the value of `abe` while the clause `abd = :ab` was minted for
`abd`.  The legacy update compiler, which uses the same scheme, fails on
the same input. -/
theorem c1_counterexample :
    (buildQueryInput allReservedWords
      { tableName := "t", indexName := none, limit := none, nextToken := none,
        params := [("abc", .vStr "1"), ("abd", .vStr "2"), ("abe", .vStr "3")] }).KeyConditionExpression
      = "abc = :a and abd = :ab and abe = :ab"
    ∧ (buildQueryInput allReservedWords
      { tableName := "t", indexName := none, limit := none, nextToken := none,
        params := [("abc", .vStr "1"), ("abd", .vStr "2"), ("abe", .vStr "3")] }).ExpressionAttributeValues
      = [(":a", .S "1"), (":ab", .S "3")]
    ∧ (Legacy.buildUpdateInput allReservedWords
      { tableName := "t", key := [],
        params := [("abc", .vStr "1"), ("abd", .vStr "2"), ("abe", .vStr "3")] }).UpdateExpression
      = "SET abc = :a, abd = :ab, abe = :ab" := by
  exact ⟨rfl, rfl, rfl⟩

/-- C3 counterexample: `age` is not a member of the reserved-word list,
yet the scan filter compiler references it as `#age` and creates a
name-alias entry for it — the compiler aliases every name unconditionally
instead of only reserved ones. -/
theorem c3_counterexample :
    (buildScanInput
      { tableName := "t", startKey := none, limit := none,
        params := some [("age", .vNum 25)], output := none,
        options := none }).FilterExpression = some "#age = :a0"
    ∧ (buildScanInput
      { tableName := "t", startKey := none, limit := none,
        params := some [("age", .vNum 25)], output := none,
        options := none }).ExpressionAttributeNames = some [("#age", "age")]
    ∧ allReservedWords.contains "age" = false := by
  exact ⟨rfl, rfl, rfl⟩

/-- C5 counterexample: the caller's parameter map is `{ age: 31 }` with no
`updatedAt`, yet the compiled update expression contains
`#updatedAt = :u1` — the `updatedAt` attribute is merged in by
`buildUpdateInput` itself (from its `Date.now()` reading), not by the
caller's orchestration layer. -/
theorem c5_counterexample :
    buildUpdateInput
      { tableName := "t", key := some [("id", .S "1")],
        params := some [("age", .vNum 31)] } 1700000000000
    = .ok { TableName := "t", Key := some [("id", .S "1")], ReturnValues := "ALL_NEW",
            ExpressionAttributeNames := [("#age", "age"), ("#updatedAt", "updatedAt")],
            ExpressionAttributeValues := [(":a0", .N "31"), (":u1", .N "1700000000000")],
            UpdateExpression := "SET #age = :a0, #updatedAt = :u1" } := by
  rfl

/-- C7 counterexample: requesting output `["name", "email"]` while the
filter parameter map already contains the key `name` still projects
`#name` — the projection block does not exclude names that are keys of the
parameter map. -/
theorem c7_counterexample :
    (buildScanInput
      { tableName := "t", startKey := none, limit := none,
        params := some [("name", .vStr "x")],
        output := some ["name", "email"], options := none }).ProjectionExpression
      = some "#name, #email" := by
  rfl

/-- C9 counterexample: with an empty parameter map the scan compiler
emits both alias tables as present-but-empty (`some []`) and omits the
filter expression entirely, and the query compiler keeps its (empty)
`ExpressionAttributeValues` in the compiled request — the empty tables
are not omitted. -/
theorem c9_counterexample :
    buildScanInput
      { tableName := "t", startKey := none, limit := none,
        params := some [], output := none, options := none }
      = { TableName := "t", Limit := 1000, Select := "ALL_ATTRIBUTES",
          ExclusiveStartKey := none,
          ExpressionAttributeNames := some [], ExpressionAttributeValues := some [],
          ProjectionExpression := none, FilterExpression := none }
    ∧ (buildQueryInput allReservedWords
        { tableName := "t", indexName := none, limit := none, nextToken := none,
          params := [] }).ExpressionAttributeValues = []
    ∧ (buildQueryInput allReservedWords
        { tableName := "t", indexName := none, limit := none, nextToken := none,
          params := [] }).KeyConditionExpression = "" := by
  exact ⟨rfl, rfl, rfl⟩

/-- C10 counterexample: two fresh update compilations of the same flat
parameter map at different clock readings (`Date.now()` values 1 and 2)
produce different compiled requests — the bound `updatedAt` value
differs — so update compilation depends on state outside the flat map. -/
theorem c10_counterexample :
    buildUpdateInput
      { tableName := "t", key := none, params := some [("age", .vNum 31)] } 1
    ≠ buildUpdateInput
      { tableName := "t", key := none, params := some [("age", .vNum 31)] } 2 := by
  intro h
  have h2 := congrArg updateValuesDigest h
  exact absurd h2 (by decide)

theorem scanLoop_names_mono (ps : List (String × RuntimeValue)) :
    ∀ (acc : ScanAcc) (i : Nat) (k : String), objHasKey acc.names k = true →
      objHasKey (scanLoop acc i ps).names k = true := by
  induction ps with
  | nil => intro acc i k h; simpa [scanLoop] using h
  | cons p rest ih =>
    intro acc i k h
    rcases p with ⟨attr, v⟩
    cases v <;> simp only [scanLoop] <;>
      exact ih _ _ _ (objHasKey_objSet_mono _ _ _ _ h)

theorem scanLoop_names_has (ps : List (String × RuntimeValue)) :
    ∀ (acc : ScanAcc) (i : Nat) (p : String × RuntimeValue), p ∈ ps →
      objHasKey (scanLoop acc i ps).names ("#" ++ p.1) = true := by
  induction ps with
  | nil => intro acc i p h; simp at h
  | cons q rest ih =>
    intro acc i p h
    rcases List.mem_cons.mp h with h1 | h1
    · rcases q with ⟨attr, v⟩
      rcases h1 with rfl
      cases v <;> simp only [scanLoop] <;>
        exact scanLoop_names_mono _ _ _ _ (objHasKey_objSet_self _ _ _)
    · rcases q with ⟨attr, v⟩
      cases v <;> simp only [scanLoop] <;> exact ih _ _ _ h1

theorem scanLoop_filters_sub (ps : List (String × RuntimeValue)) :
    ∀ (acc : ScanAcc) (i : Nat) (c : String), c ∈ acc.filters →
      c ∈ (scanLoop acc i ps).filters := by
  induction ps with
  | nil => intro acc i c h; simpa [scanLoop] using h
  | cons q rest ih =>
    intro acc i c h
    rcases q with ⟨attr, v⟩
    cases v <;> simp only [scanLoop] <;>
      exact ih _ _ _ (by first | exact h | exact List.mem_append_left _ h)

theorem scanLoop_contains_mem (pre : List (String × RuntimeValue)) :
    ∀ (acc : ScanAcc) (i : Nat) (post : List (String × RuntimeValue))
      (attr : String) (xs : List RuntimeValue),
      ("contains(" ++ ("#" ++ attr) ++ ", " ++
        (":" ++ jsCharAt attr 0 ++ Nat.repr (i + pre.length)) ++ ")")
        ∈ (scanLoop acc i (pre ++ (attr, .vList xs) :: post)).filters := by
  induction pre with
  | nil =>
    intro acc i post attr xs
    simp only [List.nil_append, List.length_nil, Nat.add_zero, scanLoop]
    exact scanLoop_filters_sub _ _ _ _
      (List.mem_append_right _ (List.mem_singleton.mpr rfl))
  | cons q pre ih =>
    intro acc i post attr xs
    rcases q with ⟨b, w⟩
    have hlen : i + ((b, w) :: pre).length = (i + 1) + pre.length := by
      simp [List.length_cons]; omega
    rw [hlen]
    cases w <;> simp only [List.cons_append, scanLoop] <;> exact ih _ _ _ _ _

theorem scanLoop_head_irrel (pre : List (String × RuntimeValue)) :
    ∀ (acc : ScanAcc) (i : Nat) (post : List (String × RuntimeValue))
      (attr : String) (x : RuntimeValue) (t1 t2 : List RuntimeValue),
      scanLoop acc i (pre ++ (attr, .vList (x :: t1)) :: post)
        = scanLoop acc i (pre ++ (attr, .vList (x :: t2)) :: post) := by
  induction pre with
  | nil =>
    intro acc i post attr x t1 t2
    simp only [List.nil_append, scanLoop, List.headD_cons]
  | cons q pre ih =>
    intro acc i post attr x t1 t2
    rcases q with ⟨b, w⟩
    cases w <;> simp only [List.cons_append, scanLoop] <;> exact ih _ _ _ _ _ _ _

/-- C4: list-valued filter conditions compile to a `contains` clause bound
to only the first element of the list.  Conjuncts: the concrete scenario
`{ tags: ["x","y"] }` compiles to `contains(#tags, :t0)` with `:t0` bound
to the tagged `"x"` and `"y"` absent from the value table; for every
parameter map, a list-valued attribute at any position emits exactly the
`contains(<nameToken>, <valueToken>)` clause; and the whole compiled scan
request is unchanged when anything after the first element of a list
value changes — later elements are never bound or tested. -/
theorem c4_contains_first_element :
    (buildScanInput
      { tableName := "test", startKey := none, limit := none,
        params := some [("tags", .vList [.vStr "x", .vStr "y"])],
        output := none, options := none }
      = { TableName := "test", Limit := 1000, Select := "ALL_ATTRIBUTES",
          ExclusiveStartKey := none,
          ExpressionAttributeNames := some [("#tags", "tags")],
          ExpressionAttributeValues := some [(":t0", .S "x")],
          ProjectionExpression := none,
          FilterExpression := some "contains(#tags, :t0)" })
    ∧ (∀ (acc : ScanAcc) (i : Nat) (pre post : List (String × RuntimeValue))
        (attr : String) (xs : List RuntimeValue),
        ("contains(" ++ ("#" ++ attr) ++ ", " ++
          (":" ++ jsCharAt attr 0 ++ Nat.repr (i + pre.length)) ++ ")")
          ∈ (scanLoop acc i (pre ++ (attr, .vList xs) :: post)).filters)
    ∧ (∀ (tn : String) (sk : Option String) (lim : Option Nat)
        (out : Option (List String)) (opts : Option ScanInputRequestOptions)
        (pre post : List (String × RuntimeValue)) (attr : String)
        (x : RuntimeValue) (t1 t2 : List RuntimeValue),
        buildScanInput
          { tableName := tn, startKey := sk, limit := lim,
            params := some (pre ++ (attr, .vList (x :: t1)) :: post),
            output := out, options := opts }
          = buildScanInput
          { tableName := tn, startKey := sk, limit := lim,
            params := some (pre ++ (attr, .vList (x :: t2)) :: post),
            output := out, options := opts }) := by
  refine ⟨rfl, ?_, ?_⟩
  · intro acc i pre post attr xs
    exact scanLoop_contains_mem pre acc i post attr xs
  · intro tn sk lim out opts pre post attr x t1 t2
    simp only [buildScanInput]
    rw [scanLoop_head_irrel]

theorem projFold_mono (l : List String) :
    ∀ (m : List (String × String)) (k : String), objHasKey m k = true →
      objHasKey (l.foldl (fun m x => objSet m ("#" ++ x) x) m) k = true := by
  induction l with
  | nil => intro m k h; simpa using h
  | cons x rest ih =>
    intro m k h
    simp only [List.foldl_cons]
    exact ih _ _ (objHasKey_objSet_mono _ _ _ _ h)

theorem projFold_has (l : List String) :
    ∀ (m : List (String × String)) (a : String), a ∈ l →
      objHasKey (l.foldl (fun m x => objSet m ("#" ++ x) x) m) ("#" ++ a) = true := by
  induction l with
  | nil => intro m a h; simp at h
  | cons x rest ih =>
    intro m a h
    simp only [List.foldl_cons]
    rcases List.mem_cons.mp h with h1 | h1
    · rcases h1 with rfl
      exact projFold_mono _ _ _ (objHasKey_objSet_self _ _ _)
    · exact ih _ _ h1

/-- C7 (amended): the projection expression contains one `#`-aliased
token per name in the requested output list — regardless of the filter
parameter map, which is never consulted — joined with `", "`; every
projected name is aliased unconditionally and receives a name-table
entry. -/
theorem c7_amended (tn : String) (sk : Option String) (lim : Option Nat)
    (ps : Option (List (String × RuntimeValue))) (outL : List String)
    (opts : Option ScanInputRequestOptions) :
    (buildScanInput
      { tableName := tn, startKey := sk, limit := lim, params := ps,
        output := some outL, options := opts }).ProjectionExpression
      = some (String.intercalate ", " (outL.map (fun a => "#" ++ a)))
    ∧ ∀ ns, (buildScanInput
        { tableName := tn, startKey := sk, limit := lim, params := ps,
          output := some outL, options := opts }).ExpressionAttributeNames = some ns →
        ∀ a ∈ outL, objHasKey ns ("#" ++ a) = true := by
  cases ps with
  | none =>
    refine ⟨rfl, ?_⟩
    intro ns hns a ha
    have hns2 : ns = outL.foldl (fun m x => objSet m ("#" ++ x) x) [] := by
      simpa [buildScanInput] using hns.symm
    rw [hns2]
    exact projFold_has _ _ _ ha
  | some ps =>
    refine ⟨rfl, ?_⟩
    intro ns hns a ha
    have hns2 : ns = (scanLoop ⟨outL.foldl (fun m x => objSet m ("#" ++ x) x) [], [], []⟩ 0 ps).names := by
      simpa [buildScanInput] using hns.symm
    rw [hns2]
    exact scanLoop_names_mono _ _ _ _ (projFold_has _ _ _ ha)

theorem c7_amended_witness :
    (buildScanInput
      { tableName := "t", startKey := none, limit := none,
        params := some [("p", .vStr "v")],
        output := some ["p", "q"], options := none }).ProjectionExpression
      = some "#p, #q"
    ∧ objHasKey [("#p", "p"), ("#q", "q")] ("#q") = true := by
  refine ⟨(c7_amended "t" none none (some [("p", .vStr "v")]) ["p", "q"] none).1, ?_⟩
  exact (c7_amended "t" none none (some [("p", .vStr "v")]) ["p", "q"] none).2
    [("#p", "p"), ("#q", "q")] rfl "q" (by decide)

theorem putFold_eq (ps : List (String × RuntimeValue)) :
    ∀ (acc : List (String × AttributeValue)),
      (∀ p ∈ ps, objHasKey acc p.1 = false) → (ps.map Prod.fst).Nodup →
      ps.foldl (fun acc kv => objSet acc kv.1 (toAttributeValue kv.2)) acc
        = acc ++ ps.map (fun kv => (kv.1, toAttributeValue kv.2)) := by
  induction ps with
  | nil => intro acc _ _; simp
  | cons p rest ih =>
    intro acc hfresh hnd
    simp only [List.foldl_cons]
    rw [objSet_of_not_has _ _ _ (hfresh p (List.mem_cons_self _ _))]
    rw [List.map_cons, List.nodup_cons] at hnd
    have hfresh2 : ∀ q ∈ rest, objHasKey (acc ++ [(p.1, toAttributeValue p.2)]) q.1 = false := by
      intro q hq
      rw [objHasKey_append]
      have h1 : objHasKey acc q.1 = false := hfresh q (List.mem_cons_of_mem _ hq)
      have h2 : p.1 ≠ q.1 := by
        intro hcontra
        exact hnd.1 (hcontra ▸ List.mem_map_of_mem Prod.fst hq)
      simp [objHasKey, h1, h2]
    rw [ih _ hfresh2 hnd.2]
    simp

/-- C8: for every put request (with the distinct keys every JavaScript
object has), the compiled put input is exactly the table name plus the
parameter map with every value replaced by its `toAttributeValue`
encoding; the `PutItemInput` shape has no expression fields at all. -/
theorem c8_put_fully_encoded (req : PutItemRequest)
    (h : (req.params.map Prod.fst).Nodup) :
    buildPutInput req
      = { TableName := req.tableName,
          Item := req.params.map (fun kv => (kv.1, toAttributeValue kv.2)) } := by
  have hfresh : ∀ p ∈ req.params, objHasKey ([] : List (String × AttributeValue)) p.1 = false := by
    intro p _; rfl
  have := putFold_eq req.params [] hfresh h
  simp only [buildPutInput, this, List.nil_append]

theorem c8_put_fully_encoded_witness :
    ((([("id", RuntimeValue.vStr "123"), ("nums", RuntimeValue.vList [.vNum 1])]).map Prod.fst).Nodup)
    ∧ buildPutInput
        { tableName := "test",
          params := [("id", .vStr "123"), ("nums", .vList [.vNum 1])] }
      = { TableName := "test",
          Item := [("id", .S "123"), ("nums", .L [.N "1"])] } := by
  refine ⟨by decide, ?_⟩
  exact c8_put_fully_encoded
    { tableName := "test", params := [("id", .vStr "123"), ("nums", .vList [.vNum 1])] }
    (by decide)

theorem objSet_mem_self (m : List (String × α)) (k : String) (v : α) :
    (k, v) ∈ objSet m k v := by
  induction m with
  | nil => simp [objSet]
  | cons p rest ih =>
    rw [objSet]
    split
    · exact List.mem_cons_self _ _
    · exact List.mem_cons_of_mem _ ih

theorem updateLoop_values_enc (ps : List (String × RuntimeValue)) :
    ∀ (acc : UpdateAcc) (i : Nat),
      (∀ kv ∈ acc.values, ∃ rv, kv.2 = toAttributeValue rv) →
      ∀ kv ∈ (updateLoop acc i ps).values, ∃ rv, kv.2 = toAttributeValue rv := by
  induction ps with
  | nil => intro acc i hacc kv hkv; exact hacc kv hkv
  | cons p rest ih =>
    intro acc i hacc kv hkv
    rcases p with ⟨k, v⟩
    refine ih _ (i + 1) ?_ kv hkv
    intro kv2 hkv2
    rcases mem_objSet _ _ _ _ hkv2 with h | h
    · exact hacc kv2 h
    · exact ⟨v, by rw [h]⟩

theorem updateLoop_names_mono (ps : List (String × RuntimeValue)) :
    ∀ (acc : UpdateAcc) (i : Nat) (k : String), objHasKey acc.names k = true →
      objHasKey (updateLoop acc i ps).names k = true := by
  induction ps with
  | nil => intro acc i k h; simpa [updateLoop] using h
  | cons p rest ih =>
    intro acc i k h
    rcases p with ⟨a, v⟩
    simp only [updateLoop]
    exact ih _ _ _ (objHasKey_objSet_mono _ _ _ _ h)

theorem updateLoop_names_has (ps : List (String × RuntimeValue)) :
    ∀ (acc : UpdateAcc) (i : Nat) (p : String × RuntimeValue), p ∈ ps →
      objHasKey (updateLoop acc i ps).names ("#" ++ p.1) = true := by
  induction ps with
  | nil => intro acc i p h; simp at h
  | cons q rest ih =>
    intro acc i p h
    rcases List.mem_cons.mp h with h1 | h1
    · rcases q with ⟨a, v⟩
      rcases h1 with rfl
      simp only [updateLoop]
      exact updateLoop_names_mono _ _ _ _ (objHasKey_objSet_self _ _ _)
    · rcases q with ⟨a, v⟩
      simp only [updateLoop]
      exact ih _ _ _ h1

theorem updateLoop_exprs (ps : List (String × RuntimeValue)) :
    ∀ (acc : UpdateAcc) (i : Nat), ∃ cl,
      (updateLoop acc i ps).exprs = acc.exprs ++ cl
      ∧ List.Forall₂ (fun (p : String × RuntimeValue) c => ∃ f,
          c = "#" ++ p.1 ++ " = " ++ f) ps cl := by
  induction ps with
  | nil => intro acc i; exact ⟨[], by simp [updateLoop], List.Forall₂.nil⟩
  | cons p rest ih =>
    intro acc i
    rcases p with ⟨k, v⟩
    simp only [updateLoop]
    rcases ih ⟨objSet acc.names ("#" ++ k) k,
               objSet acc.values (":" ++ jsCharAt k 0 ++ Nat.repr i) (toAttributeValue v),
               acc.exprs ++ ["#" ++ k ++ " = " ++ (":" ++ jsCharAt k 0 ++ Nat.repr i)]⟩
        (i + 1) with ⟨cl, h1, h2⟩
    refine ⟨("#" ++ k ++ " = " ++ (":" ++ jsCharAt k 0 ++ Nat.repr i)) :: cl, ?_, ?_⟩
    · rw [h1, List.append_assoc, List.singleton_append]
    · exact List.Forall₂.cons ⟨":" ++ jsCharAt k 0 ++ Nat.repr i, rfl⟩ h2

theorem updateLoop_keys_det (ps1 : List (String × RuntimeValue)) :
    ∀ (ps2 : List (String × RuntimeValue)) (n : List (String × String))
      (e : List String) (i : Nat) (v1 v2 : List (String × AttributeValue)),
      ps1.map Prod.fst = ps2.map Prod.fst →
      (updateLoop ⟨n, v1, e⟩ i ps1).names = (updateLoop ⟨n, v2, e⟩ i ps2).names
      ∧ (updateLoop ⟨n, v1, e⟩ i ps1).exprs = (updateLoop ⟨n, v2, e⟩ i ps2).exprs := by
  induction ps1 with
  | nil =>
    intro ps2 n e i v1 v2 h
    cases ps2 with
    | nil => exact ⟨rfl, rfl⟩
    | cons q rest2 => simp at h
  | cons p rest ih =>
    intro ps2 n e i v1 v2 h
    cases ps2 with
    | nil => simp at h
    | cons q rest2 =>
      rcases p with ⟨k, v⟩
      rcases q with ⟨k2, w⟩
      simp only [List.map_cons, List.cons.injEq] at h
      rcases h with ⟨hk, hrest⟩
      subst hk
      simp only [updateLoop]
      exact ih rest2 _ _ (i + 1) _ _ hrest

/-- C5 (amended): the update compiler itself merges the `updatedAt`
timestamp (its `Date.now()` reading) into the parameter map before
compiling; the produced expression is the literal `SET ` followed by one
clause `#<name> = <placeholder>` per attribute of the merged map joined
with `", "` (names aliased unconditionally, not only when reserved), and
every bound value is a `toAttributeValue` encoding — never a raw runtime
value. -/
theorem c5_amended (req : UpdateItemRequest) (ts : Int) (out : UpdateItemInput)
    (h : buildUpdateInput req ts = .ok out) :
    out.UpdateExpression = "SET " ++ String.intercalate ", "
      (updateLoop ⟨[], [], []⟩ 0 (objSet (req.params.getD []) "updatedAt" (.vNum ts))).exprs
    ∧ (∀ kv ∈ out.ExpressionAttributeValues, ∃ rv, kv.2 = toAttributeValue rv)
    ∧ objHasKey out.ExpressionAttributeNames "#updatedAt" = true
    ∧ List.Forall₂ (fun (p : String × RuntimeValue) c => ∃ f,
        c = "#" ++ p.1 ++ " = " ++ f)
        (objSet (req.params.getD []) "updatedAt" (.vNum ts))
        (updateLoop ⟨[], [], []⟩ 0 (objSet (req.params.getD []) "updatedAt" (.vNum ts))).exprs := by
  rw [buildUpdateInput] at h
  split_ifs at h
  rw [Except.ok.injEq] at h
  subst h
  refine ⟨rfl, ?_, ?_, ?_⟩
  · exact updateLoop_values_enc _ _ _ (by intro kv hkv; simp at hkv)
  · exact updateLoop_names_has _ _ _ ("updatedAt", .vNum ts) (objSet_mem_self _ _ _)
  · rcases updateLoop_exprs (objSet (req.params.getD []) "updatedAt" (.vNum ts)) ⟨[], [], []⟩ 0
      with ⟨cl, h1, h2⟩
    rw [h1, List.nil_append]
    exact h2

theorem c5_amended_witness :
    ∃ out, buildUpdateInput
        { tableName := "w", key := none, params := some [("x", .vNum 1)] } 5 = .ok out
      ∧ objHasKey out.ExpressionAttributeNames "#updatedAt" = true := by
  refine ⟨_, rfl, ?_⟩
  exact (c5_amended
    { tableName := "w", key := none, params := some [("x", .vNum 1)] } 5 _ rfl).2.2.1

/-- C10 (amended): scan and query compilation are pure functions of the
request; update compilation additionally reads the clock, so two fresh
update compilations of the same flat map agree exactly when their
`Date.now()` readings agree — the update expression string and the
name-alias table are identical regardless of the reading, and only the
value bound for the `updatedAt` placeholder differs. -/
theorem c10_amended (req : UpdateItemRequest) (ts1 ts2 : Int)
    (o1 o2 : UpdateItemInput)
    (h1 : buildUpdateInput req ts1 = .ok o1)
    (h2 : buildUpdateInput req ts2 = .ok o2) :
    o1.UpdateExpression = o2.UpdateExpression
    ∧ o1.ExpressionAttributeNames = o2.ExpressionAttributeNames
    ∧ o1.TableName = o2.TableName
    ∧ (ts1 = ts2 → o1 = o2) := by
  rw [buildUpdateInput] at h1 h2
  split_ifs at h1 h2
  rw [Except.ok.injEq] at h1 h2
  subst h1
  subst h2
  have hkeys : (objSet (req.params.getD []) "updatedAt" (RuntimeValue.vNum ts1)).map Prod.fst
      = (objSet (req.params.getD []) "updatedAt" (RuntimeValue.vNum ts2)).map Prod.fst :=
    objSet_map_fst _ _ _ _
  have hdet := updateLoop_keys_det
    (objSet (req.params.getD []) "updatedAt" (.vNum ts1))
    (objSet (req.params.getD []) "updatedAt" (.vNum ts2))
    [] [] 0 [] [] hkeys
  refine ⟨?_, ?_, rfl, ?_⟩
  · show "SET " ++ String.intercalate ", " _ = "SET " ++ String.intercalate ", " _
    rw [hdet.2]
  · exact hdet.1
  · intro hts
    subst hts
    rfl

theorem c10_amended_witness :
    ∃ o1 o2, buildUpdateInput
        { tableName := "t", key := none, params := some [("a", .vNum 1)] } 3 = .ok o1
      ∧ buildUpdateInput
        { tableName := "t", key := none, params := some [("a", .vNum 1)] } 4 = .ok o2
      ∧ o1.UpdateExpression = o2.UpdateExpression := by
  refine ⟨_, _, rfl, rfl, ?_⟩
  exact (c10_amended
    { tableName := "t", key := none, params := some [("a", .vNum 1)] } 3 4 _ _ rfl rfl).1

theorem queryLoop_values_det (rw : List String) (ps : List (String × RuntimeValue)) :
    ∀ (n1 n2 : List (String × String)) (v : List (String × AttributeValue))
      (k1 k2 : List String),
      (queryLoop rw ⟨n1, v, k1⟩ ps).values = (queryLoop rw ⟨n2, v, k2⟩ ps).values := by
  induction ps with
  | nil => intro n1 n2 v k1 k2; rfl
  | cons p rest ih =>
    intro n1 n2 v k1 k2
    rcases p with ⟨attr, val⟩
    simp only [queryLoop]
    cases hc : rw.contains attr
    · simp only [Bool.false_eq_true, if_false]
      exact ih _ _ _ _ _
    · simp only [if_true]
      exact ih _ _ _ _ _

theorem queryLoop_names_eq (rw : List String) (ps : List (String × RuntimeValue)) :
    ∀ (acc : QueryAcc),
      (∀ p ∈ ps, objHasKey acc.names ("#" ++ p.1) = false) →
      (ps.map Prod.fst).Nodup →
      (queryLoop rw acc ps).names
        = acc.names ++ (ps.filter (fun p => rw.contains p.1)).map (fun p => ("#" ++ p.1, p.1)) := by
  induction ps with
  | nil => intro acc _ _; simp [queryLoop]
  | cons p rest ih =>
    intro acc hfresh hnd
    rcases p with ⟨attr, val⟩
    rw [List.map_cons, List.nodup_cons] at hnd
    simp only [queryLoop]
    cases hc : rw.contains attr
    · simp only [Bool.false_eq_true, if_false]
      rw [ih ⟨acc.names,
              objSet acc.values
                (if objHasKey acc.values (":" ++ jsCharAt attr 0) then
                  ":" ++ jsCharAt attr 0 ++ jsCharAt attr 1
                 else ":" ++ jsCharAt attr 0) (toAttributeValue val),
              acc.keyExprs ++ [attr ++ " = " ++
                (if objHasKey acc.values (":" ++ jsCharAt attr 0) then
                  ":" ++ jsCharAt attr 0 ++ jsCharAt attr 1
                 else ":" ++ jsCharAt attr 0)]⟩
            (fun q hq => hfresh q (List.mem_cons_of_mem _ hq)) hnd.2]
      rw [List.filter_cons]
      simp only [hc, Bool.false_eq_true, if_false]
    · simp only [if_true]
      have hset : objSet acc.names ("#" ++ attr) attr
          = acc.names ++ [("#" ++ attr, attr)] :=
        objSet_of_not_has _ _ _ (hfresh (attr, val) (List.mem_cons_self _ _))
      have hfresh2 : ∀ q ∈ rest,
          objHasKey (acc.names ++ [("#" ++ attr, attr)]) ("#" ++ q.1) = false := by
        intro q hq
        rw [objHasKey_append]
        have ha : objHasKey acc.names ("#" ++ q.1) = false :=
          hfresh q (List.mem_cons_of_mem _ hq)
        have hb : attr ≠ q.1 := by
          intro hcontra
          have hmem : q.1 ∈ List.map Prod.fst rest := List.mem_map_of_mem Prod.fst hq
          rw [← hcontra] at hmem
          exact hnd.1 hmem
        have hc2 : (("#" ++ attr : String) == "#" ++ q.1) = false :=
          beq_eq_false_iff_ne.mpr (fun he => hb (hash_tok_inj _ _ he))
        simp [objHasKey, ha, hc2]
      rw [ih ⟨objSet acc.names ("#" ++ attr) attr,
              objSet acc.values
                (if objHasKey acc.values (":" ++ jsCharAt attr 0) then
                  ":" ++ jsCharAt attr 0 ++ jsCharAt attr 1
                 else ":" ++ jsCharAt attr 0) (toAttributeValue val),
              acc.keyExprs ++ ["#" ++ attr ++ " = " ++
                (if objHasKey acc.values (":" ++ jsCharAt attr 0) then
                  ":" ++ jsCharAt attr 0 ++ jsCharAt attr 1
                 else ":" ++ jsCharAt attr 0)]⟩
            (by rw [hset]; exact hfresh2) hnd.2]
      rw [hset, List.filter_cons]
      simp only [hc, if_true]
      simp [List.append_assoc]

theorem queryLoop_keyExprs (rw : List String) (ps : List (String × RuntimeValue)) :
    ∀ (acc : QueryAcc), ∃ cl,
      (queryLoop rw acc ps).keyExprs = acc.keyExprs ++ cl
      ∧ List.Forall₂ (fun (p : String × RuntimeValue) c => ∃ f,
          c = (if rw.contains p.1 then "#" ++ p.1 else p.1) ++ " = " ++ f) ps cl := by
  induction ps with
  | nil => intro acc; exact ⟨[], by simp [queryLoop], List.Forall₂.nil⟩
  | cons p rest ih =>
    intro acc
    rcases p with ⟨attr, val⟩
    simp only [queryLoop]
    cases hc : rw.contains attr
    · simp only [Bool.false_eq_true, if_false]
      rcases ih ⟨acc.names,
                 objSet acc.values
                   (if objHasKey acc.values (":" ++ jsCharAt attr 0) then
                     ":" ++ jsCharAt attr 0 ++ jsCharAt attr 1
                    else ":" ++ jsCharAt attr 0) (toAttributeValue val),
                 acc.keyExprs ++ [attr ++ " = " ++
                   (if objHasKey acc.values (":" ++ jsCharAt attr 0) then
                     ":" ++ jsCharAt attr 0 ++ jsCharAt attr 1
                    else ":" ++ jsCharAt attr 0)]⟩ with ⟨cl, h1, h2⟩
      refine ⟨(attr ++ " = " ++
        (if objHasKey acc.values (":" ++ jsCharAt attr 0) then
          ":" ++ jsCharAt attr 0 ++ jsCharAt attr 1
         else ":" ++ jsCharAt attr 0)) :: cl, ?_, ?_⟩
      · rw [h1, List.append_assoc, List.singleton_append]
      · refine List.Forall₂.cons ?_ h2
        refine ⟨(if objHasKey acc.values (":" ++ jsCharAt attr 0) then
          ":" ++ jsCharAt attr 0 ++ jsCharAt attr 1
         else ":" ++ jsCharAt attr 0), ?_⟩
        rw [show rw.contains (attr, val).1 = false from hc]
        simp only [Bool.false_eq_true, if_false]
    · simp only [if_true]
      rcases ih ⟨objSet acc.names ("#" ++ attr) attr,
                 objSet acc.values
                   (if objHasKey acc.values (":" ++ jsCharAt attr 0) then
                     ":" ++ jsCharAt attr 0 ++ jsCharAt attr 1
                    else ":" ++ jsCharAt attr 0) (toAttributeValue val),
                 acc.keyExprs ++ ["#" ++ attr ++ " = " ++
                   (if objHasKey acc.values (":" ++ jsCharAt attr 0) then
                     ":" ++ jsCharAt attr 0 ++ jsCharAt attr 1
                    else ":" ++ jsCharAt attr 0)]⟩ with ⟨cl, h1, h2⟩
      refine ⟨("#" ++ attr ++ " = " ++
        (if objHasKey acc.values (":" ++ jsCharAt attr 0) then
          ":" ++ jsCharAt attr 0 ++ jsCharAt attr 1
         else ":" ++ jsCharAt attr 0)) :: cl, ?_, ?_⟩
      · rw [h1, List.append_assoc, List.singleton_append]
      · refine List.Forall₂.cons ?_ h2
        refine ⟨(if objHasKey acc.values (":" ++ jsCharAt attr 0) then
          ":" ++ jsCharAt attr 0 ++ jsCharAt attr 1
         else ":" ++ jsCharAt attr 0), ?_⟩
        rw [show rw.contains (attr, val).1 = true from hc]
        simp only [if_true]

theorem queryLoop_names_nil_iff (rw : List String) (ps : List (String × RuntimeValue)) :
    ∀ (acc : QueryAcc),
      ((queryLoop rw acc ps).names = []
        ↔ (acc.names = [] ∧ ∀ p ∈ ps, rw.contains p.1 = false)) := by
  induction ps with
  | nil => intro acc; simp [queryLoop]
  | cons p rest ih =>
    intro acc
    rcases p with ⟨attr, val⟩
    simp only [queryLoop]
    cases hc : rw.contains attr
    · simp only [Bool.false_eq_true, if_false]
      rw [ih]
      constructor
      · rintro ⟨h1, h2⟩
        refine ⟨h1, ?_⟩
        intro p hp
        rcases List.mem_cons.mp hp with h3 | h3
        · rcases h3 with rfl
          exact hc
        · exact h2 p h3
      · rintro ⟨h1, h2⟩
        exact ⟨h1, fun p hp => h2 p (List.mem_cons_of_mem _ hp)⟩
    · simp only [if_true]
      rw [ih]
      constructor
      · rintro ⟨h1, h2⟩
        exact absurd h1 (objSet_ne_nil _ _ _)
      · rintro ⟨h1, h2⟩
        have h3 : rw.contains attr = false := h2 (attr, val) (List.mem_cons_self _ _)
        rw [hc] at h3
        exact Bool.noConfusion h3

theorem queryLoop_values_cons (rw : List String) (acc : QueryAcc) (attr : String)
    (val : RuntimeValue) (rest : List (String × RuntimeValue)) :
    (queryLoop rw acc ((attr, val) :: rest)).values
      = (queryLoop rw ⟨[],
          objSet acc.values
            (if objHasKey acc.values (":" ++ jsCharAt attr 0) then
              ":" ++ jsCharAt attr 0 ++ jsCharAt attr 1
             else ":" ++ jsCharAt attr 0) (toAttributeValue val),
          []⟩ rest).values := by
  simp only [queryLoop]
  cases hc : rw.contains attr
  · simp only [Bool.false_eq_true, if_false]
    exact queryLoop_values_det rw rest _ [] _ _ []
  · simp only [if_true]
    exact queryLoop_values_det rw rest _ [] _ _ []

/-- C1 (amended): the value placeholder is `:` plus the first character of
the attribute name; when that exact token is already a key of the value
table, the compiler instead appends the name's second character — not an
integer position index — once, with no re-check.  For a two-entry map
whose names share a first letter and whose second name has a non-empty
second character, the two placeholders are distinct and each is bound to
the encoded value of its own attribute; with deeper collisions the tokens
can still clash (see the counterexample). -/
theorem c1_amended (rw : List String) (tn : String) (idx : Option String)
    (lim : Option Nat) (nt : Option (List (String × AttributeValue)))
    (a b : String) (va vb : RuntimeValue)
    (h1 : jsCharAt a 0 = jsCharAt b 0) (h2 : jsCharAt b 1 ≠ "") :
    (buildQueryInput rw
      { tableName := tn, indexName := idx, limit := lim, nextToken := nt,
        params := [(a, va), (b, vb)] }).ExpressionAttributeValues
      = [(":" ++ jsCharAt a 0, toAttributeValue va),
         (":" ++ jsCharAt b 0 ++ jsCharAt b 1, toAttributeValue vb)]
    ∧ (":" ++ jsCharAt a 0) ≠ (":" ++ jsCharAt b 0 ++ jsCharAt b 1) := by
  have hne2 : ¬((":" ++ jsCharAt a 0 : String) = ":" ++ jsCharAt a 0 ++ jsCharAt b 1) :=
    colon_tok_ne _ _ h2
  have hne : (":" ++ jsCharAt a 0) ≠ (":" ++ jsCharAt b 0 ++ jsCharAt b 1) := by
    rw [← h1]
    exact hne2
  refine ⟨?_, hne⟩
  show (queryLoop rw ⟨[], [], []⟩ [(a, va), (b, vb)]).values = _
  rw [queryLoop_values_cons, queryLoop_values_cons, ← h1]
  simp only [queryLoop, objHasKey, objSet, Bool.false_eq_true, if_false,
             beq_self_eq_true, Bool.true_or, if_true]
  rw [if_neg hne2]

theorem c1_amended_witness :
    (jsCharAt "ax" 0 = jsCharAt "ay" 0)
    ∧ (jsCharAt "ay" 1 ≠ "")
    ∧ ((buildQueryInput allReservedWords
        { tableName := "t", indexName := none, limit := none, nextToken := none,
          params := [("ax", .vStr "1"), ("ay", .vNum 2)] }).ExpressionAttributeValues
        = [(":" ++ jsCharAt "ax" 0, toAttributeValue (.vStr "1")),
           (":" ++ jsCharAt "ay" 0 ++ jsCharAt "ay" 1, toAttributeValue (.vNum 2))]
      ∧ (":" ++ jsCharAt "ax" 0) ≠ (":" ++ jsCharAt "ay" 0 ++ jsCharAt "ay" 1)) := by
  refine ⟨rfl, by decide, ?_⟩
  exact c1_amended allReservedWords "t" none none none "ax" "ay"
    (.vStr "1") (.vNum 2) rfl (by decide)

/-- C3 (amended): the key-condition compiler follows the reserved-word
rule — an attribute name is referenced via a `#` alias, with a name-table
entry, exactly when it is a case-sensitive member of the reserved list,
and otherwise appears bare with no alias entry — but the scan filter
compiler and the current update compiler alias every attribute name
unconditionally. -/
theorem c3_amended (rw : List String) (req : QueryItemRequest)
    (hnd : (req.params.map Prod.fst).Nodup) :
    (queryLoop rw ⟨[], [], []⟩ req.params).names
        = (req.params.filter (fun p => rw.contains p.1)).map (fun p => ("#" ++ p.1, p.1))
    ∧ ((buildQueryInput rw req).ExpressionAttributeNames = none
        ↔ ∀ p ∈ req.params, rw.contains p.1 = false)
    ∧ List.Forall₂ (fun (p : String × RuntimeValue) c => ∃ f,
        c = (if rw.contains p.1 then "#" ++ p.1 else p.1) ++ " = " ++ f)
        req.params (queryLoop rw ⟨[], [], []⟩ req.params).keyExprs
    ∧ (∀ (ps : List (String × RuntimeValue)) (p : String × RuntimeValue), p ∈ ps →
        objHasKey (scanLoop ⟨[], [], []⟩ 0 ps).names ("#" ++ p.1) = true)
    ∧ (∀ (ps : List (String × RuntimeValue)) (p : String × RuntimeValue), p ∈ ps →
        objHasKey (updateLoop ⟨[], [], []⟩ 0 ps).names ("#" ++ p.1) = true) := by
  refine ⟨?_, ?_, ?_, ?_, ?_⟩
  · have := queryLoop_names_eq rw req.params ⟨[], [], []⟩ (fun p hp => rfl) hnd
    simpa using this
  · have hnil := queryLoop_names_nil_iff rw req.params ⟨[], [], []⟩
    have hnil2 : (queryLoop rw ⟨[], [], []⟩ req.params).names = []
        ↔ ∀ p ∈ req.params, rw.contains p.1 = false := by
      rw [hnil]
      simp
    show (if (queryLoop rw ⟨[], [], []⟩ req.params).names.isEmpty then none
          else some (queryLoop rw ⟨[], [], []⟩ req.params).names) = none ↔ _
    cases hemp : (queryLoop rw ⟨[], [], []⟩ req.params).names.isEmpty
    · simp only [Bool.false_eq_true, if_false]
      constructor
      · intro h
        exact absurd h (Option.some_ne_none _)
      · intro h
        rw [hnil2.mpr h] at hemp
        exact Bool.noConfusion hemp
    · simp only [if_true]
      constructor
      · intro _
        exact hnil2.mp (List.isEmpty_iff.mp hemp)
      · intro _
        trivial
  · rcases queryLoop_keyExprs rw req.params ⟨[], [], []⟩ with ⟨cl, hq1, hq2⟩
    rw [hq1, List.nil_append]
    exact hq2
  · intro ps p hp
    exact scanLoop_names_has ps ⟨[], [], []⟩ 0 p hp
  · intro ps p hp
    exact updateLoop_names_has ps ⟨[], [], []⟩ 0 p hp

theorem c3_amended_witness :
    ((([("role", RuntimeValue.vStr "v"), ("age", RuntimeValue.vNum 1)]).map Prod.fst).Nodup)
    ∧ (queryLoop allReservedWords ⟨[], [], []⟩
        [("role", .vStr "v"), ("age", .vNum 1)]).names = [("#role", "role")] := by
  refine ⟨by decide, ?_⟩
  have h := (c3_amended allReservedWords
    { tableName := "t", indexName := none, limit := none, nextToken := none,
      params := [("role", .vStr "v"), ("age", .vNum 1)] } (by decide)).1
  rw [h]
  decide

theorem buildScanInput_filter_none_iff (tn : String) (sk : Option String)
    (lim : Option Nat) (opts : Option ScanInputRequestOptions)
    (ps : List (String × RuntimeValue)) :
    ((buildScanInput
      { tableName := tn, startKey := sk, limit := lim, params := some ps,
        output := none, options := opts }).FilterExpression = none
      ↔ (scanLoop ⟨[], [], []⟩ 0 ps).filters = []) := by
  show (if (scanLoop ⟨[], [], []⟩ 0 ps).filters.length > 0 then some _ else none) = none ↔ _
  cases hf : (scanLoop ⟨[], [], []⟩ 0 ps).filters
  · simp
  · simp

/-- C9 (amended): for query compilation, `ExpressionAttributeNames` is
omitted exactly when no attribute of the map is reserved, but
`ExpressionAttributeValues` is unconditionally part of the compiled
request — even as an empty map for an empty parameter map (whose
key-condition expression is the empty string); for scan compilation both
alias tables are present (possibly empty) whenever a parameter map is
supplied, while `FilterExpression` is omitted exactly when no clause was
emitted. -/
theorem c9_amended (rw : List String) (req : QueryItemRequest) :
    ((buildQueryInput rw req).ExpressionAttributeNames = none
      ↔ ∀ p ∈ req.params, rw.contains p.1 = false)
    ∧ (buildQueryInput rw req).ExpressionAttributeValues
        = (queryLoop rw ⟨[], [], []⟩ req.params).values
    ∧ (∀ (tn : String) (sk : Option String) (lim : Option Nat)
        (opts : Option ScanInputRequestOptions) (ps : List (String × RuntimeValue)),
        (buildScanInput
          { tableName := tn, startKey := sk, limit := lim, params := some ps,
            output := none, options := opts }).ExpressionAttributeNames
            = some (scanLoop ⟨[], [], []⟩ 0 ps).names
        ∧ (buildScanInput
          { tableName := tn, startKey := sk, limit := lim, params := some ps,
            output := none, options := opts }).ExpressionAttributeValues
            = some (scanLoop ⟨[], [], []⟩ 0 ps).values
        ∧ ((buildScanInput
          { tableName := tn, startKey := sk, limit := lim, params := some ps,
            output := none, options := opts }).FilterExpression = none
            ↔ (scanLoop ⟨[], [], []⟩ 0 ps).filters = [])) := by
  refine ⟨?_, rfl, ?_⟩
  · have hnil := queryLoop_names_nil_iff rw req.params ⟨[], [], []⟩
    have hnil2 : (queryLoop rw ⟨[], [], []⟩ req.params).names = []
        ↔ ∀ p ∈ req.params, rw.contains p.1 = false := by
      rw [hnil]
      simp
    show (if (queryLoop rw ⟨[], [], []⟩ req.params).names.isEmpty then none
          else some (queryLoop rw ⟨[], [], []⟩ req.params).names) = none ↔ _
    cases hemp : (queryLoop rw ⟨[], [], []⟩ req.params).names.isEmpty
    · simp only [Bool.false_eq_true, if_false]
      constructor
      · intro h
        exact absurd h (Option.some_ne_none _)
      · intro h
        rw [hnil2.mpr h] at hemp
        exact Bool.noConfusion hemp
    · simp only [if_true]
      constructor
      · intro _
        exact hnil2.mp (List.isEmpty_iff.mp hemp)
      · intro _
        trivial
  · intro tn sk lim opts ps
    exact ⟨rfl, rfl, buildScanInput_filter_none_iff tn sk lim opts ps⟩

theorem c9_amended_witness :
    (buildQueryInput allReservedWords
      { tableName := "t", indexName := none, limit := none, nextToken := none,
        params := [("a", .vNum 1)] }).ExpressionAttributeNames = none := by
  exact (c9_amended allReservedWords
    { tableName := "t", indexName := none, limit := none, nextToken := none,
      params := [("a", .vNum 1)] }).1.mpr (by decide)
